import Mathlib

/-!
Verification development for the avocado specification validator
(`src/index.ts`): a shallow embedding of the reference-graph walker, the
per-node rule set, the orphan detector, the correlation-key function and the
incremental diff engine, together with theorems about the frozen claims.

External collaborators (the markdown reader, YAML/JSON parsers, the `path`
module and the file system) are modelled as finite data supplied to the
embedded functions: a file system is an association list from paths to the
parse outcome and resolved reference targets of the file, a parsed manifest
is the table of code blocks, YAML outcomes and per-tag input file lists.
-/

namespace Avocado

/-- Severity of a finding, mirroring `level: 'Error' | 'Warning'`. -/
inductive ErrLevel where
  | error
  | warning
deriving DecidableEq

/-- The closed enumeration of finding codes of `err.Error`, exactly the nine
codes that `errorCorrelationId` switches on. -/
inductive ErrCode where
  | UNREFERENCED_JSON_FILE
  | NO_JSON_FILE_FOUND
  | NOT_AUTOREST_MARKDOWN
  | JSON_PARSE
  | CIRCULAR_REFERENCE
  | MISSING_README
  | INCONSISTENT_API_VERSION
  | MULTIPLE_API_VERSION
  | INVALID_FILE_LOCATION
deriving DecidableEq

/-- A finding (`err.Error`): code, severity, message and the code-specific
location fields, absent fields modelled as `none`.  `errUrl`/`errPosition`
are the `url` and `position` of the parser error payload carried by a
`JSON_PARSE` finding. -/
structure Err where
  code : ErrCode
  level : ErrLevel
  message : String
  path : String
  jsonUrl : Option String := none
  readMeUrl : Option String := none
  folderUrl : Option String := none
  helpUrl : Option String := none
  tag : Option String := none
  errUrl : Option String := none
  errPosition : Option Nat := none
deriving DecidableEq

/-- The projected object that `errorCorrelationId` hashes: the code together
with the code-specific url (and, for `JSON_PARSE`, the parser position).
The structural hash of `node-object-hash` is a deterministic function of this
object, so the object itself serves as the correlation key. -/
structure CorrKey where
  code : ErrCode
  url : Option String
  position : Option Nat
deriving DecidableEq

/-- Embedding of `errorCorrelationId`: the per-code projection switch of
`src/index.ts` lines 28-78. -/
def errorCorrelationId (e : Err) : CorrKey :=
  match e.code with
  | ErrCode.UNREFERENCED_JSON_FILE => { code := e.code, url := e.jsonUrl, position := none }
  | ErrCode.NO_JSON_FILE_FOUND => { code := e.code, url := e.readMeUrl, position := none }
  | ErrCode.NOT_AUTOREST_MARKDOWN => { code := e.code, url := e.readMeUrl, position := none }
  | ErrCode.JSON_PARSE => { code := e.code, url := e.errUrl, position := e.errPosition }
  | ErrCode.CIRCULAR_REFERENCE => { code := e.code, url := e.jsonUrl, position := none }
  | ErrCode.MISSING_README => { code := e.code, url := e.folderUrl, position := none }
  | ErrCode.INCONSISTENT_API_VERSION => { code := e.code, url := e.jsonUrl, position := none }
  | ErrCode.MULTIPLE_API_VERSION => { code := e.code, url := e.readMeUrl, position := none }
  | ErrCode.INVALID_FILE_LOCATION => { code := e.code, url := e.jsonUrl, position := none }

/-- Spec-side definition (following the spec's words in section 4.6, for
comparison with `errorCorrelationId`): equality of the code-specific subset
of fields of two findings of the same code. -/
def specProjectionEq (e1 e2 : Err) : Bool :=
  match e1.code with
  | ErrCode.JSON_PARSE => e1.errUrl == e2.errUrl && e1.errPosition == e2.errPosition
  | ErrCode.NO_JSON_FILE_FOUND => e1.readMeUrl == e2.readMeUrl
  | ErrCode.NOT_AUTOREST_MARKDOWN => e1.readMeUrl == e2.readMeUrl
  | ErrCode.MULTIPLE_API_VERSION => e1.readMeUrl == e2.readMeUrl
  | ErrCode.MISSING_README => e1.folderUrl == e2.folderUrl
  | _ => e1.jsonUrl == e2.jsonUrl

/-- Leading-match test on character lists: the candidate substring matches at
the head of the haystack. -/
def leadMatches : List Char → List Char → Bool
  | [], _ => true
  | _ :: _, [] => false
  | a :: as, b :: bs => a == b && leadMatches as bs

/-- Substring occurrence on character lists. -/
def hasSubList (sub : List Char) : List Char → Bool
  | [] => leadMatches sub []
  | b :: bs => leadMatches sub (b :: bs) || hasSubList sub bs

/-- Embedding of JavaScript `s.includes(sub)`: substring containment. -/
def jsIncludes (s sub : String) : Bool :=
  hasSubList sub.toList s.toList

/-- Splitting a character list at every occurrence of a separator; always
returns at least one (possibly empty) piece, like JavaScript `split`. -/
def splitOnChar (sep : Char) : List Char → List (List Char)
  | [] => [[]]
  | c :: cs =>
    if c = sep then [] :: splitOnChar sep cs
    else
      match splitOnChar sep cs with
      | [] => [[c]]
      | s :: ss => (c :: s) :: ss

/-- Embedding of JavaScript `s.split(sep)` for a one-character separator. -/
def jsSplit (s : String) (sep : Char) : List String :=
  (splitOnChar sep s.toList).map (fun cs => String.mk cs)

/-- Whitespace test used by the embedded JavaScript `trim`. -/
def isJsWhitespace (c : Char) : Bool :=
  decide (c = ' ') || decide (c = '\t') || decide (c = '\n') || decide (c = '\r')

/-- Embedding of JavaScript `s.trim()`. -/
def jsTrim (s : String) : String :=
  String.mk (((s.toList.dropWhile isJsWhitespace).reverse.dropWhile isJsWhitespace).reverse)

/-- Embedding of JavaScript `s.toLowerCase()` over the ASCII range. -/
def jsToLowerCase (s : String) : String :=
  String.mk (s.toList.map Char.toLower)

/-- JavaScript `ToString` coercion applied to a possibly-undefined string
value: `undefined` coerces to the literal text `undefined` (this is what
`String.prototype.includes` does to a non-string argument). -/
def jsUndefinedToString (v : Option String) : String :=
  match v with
  | some s => s
  | none => "undefined"

/-- The `info` object of a parsed swagger document: only the `version` field
is inspected by the rule set. -/
structure InfoModel where
  version : Option String
deriving DecidableEq

/-- The fields of a parsed (non-null) JSON document inspected by the rule
set: the `info` object and the `host` string. -/
structure JsonObjectModel where
  info : Option InfoModel
  host : Option String
deriving DecidableEq

/-- Kind of a tracked specification file. -/
inductive SpecKind where
  | EXAMPLE
  | SWAGGER
deriving DecidableEq

/-- A tracked specification file (`Specification` in `src/index.ts`). -/
structure Specification where
  path : String
  readMePath : String
  kind : SpecKind
deriving DecidableEq

/-- Embedding of `validateSpecificationAPIVersion` (`src/index.ts` lines
263-278): if `document.info` is present (the code does not test
`info.version` itself), and the path does not contain the JavaScript string
coercion of `info.version`, emit `INCONSISTENT_API_VERSION`. -/
def validateSpecificationAPIVersion (current : Specification) (document : JsonObjectModel) : List Err :=
  match document.info with
  | none => []
  | some info =>
    if jsIncludes current.path (jsUndefinedToString info.version) then []
    else
      [{ code := ErrCode.INCONSISTENT_API_VERSION,
         level := ErrLevel.error,
         message := "The API version of the swagger is inconsistent with its file path.",
         jsonUrl := some current.path,
         path := current.path,
         readMeUrl := some current.readMePath }]

/-- Embedding of `validateFileLocation` (`src/index.ts` lines 280-295). -/
def validateFileLocation (current : Specification) (document : JsonObjectModel) : List Err :=
  match document.host with
  | none => []
  | some host =>
    if host = "management.azure.com" ∧ jsIncludes current.path "resource-manager" = false then
      [{ code := ErrCode.INVALID_FILE_LOCATION,
         level := ErrLevel.warning,
         path := current.path,
         message := "The management plane swagger JSON file does not match its folder path. Make sure management plane swagger located in resource-manager folder",
         jsonUrl := some current.path,
         readMeUrl := some current.readMePath }]
    else []

/-- A parser error payload reported by the tolerant JSON parser for one file:
the url and position that end up on a `JSON_PARSE` finding. -/
structure ParseErrModel where
  url : String
  position : Nat
deriving DecidableEq

/-- Outcome of reading and parsing one on-disk file: the parser errors
reported during `jsonParse`, the parsed document (`none` models a `null`
document, for which `getRefs` yields nothing), and the resolved outbound
reference targets computed by `getReferencedFileNames` (reference extraction
plus `path` resolution, pure per section 4.1 of the spec). -/
structure FileModel where
  parseErrors : List ParseErrModel
  document : Option JsonObjectModel
  refs : List String
deriving DecidableEq

/-- Generic association-list lookup, first match wins, mirroring a JavaScript
map/object access. -/
def assocGet {κ α : Type} [DecidableEq κ] (l : List (κ × α)) (k : κ) : Option α :=
  match l.find? (fun kv => decide (kv.1 = k)) with
  | some kv => some kv.2
  | none => none

/-- The file system visible to one traversal: path to file outcome; a path
absent from the list is unreadable and raises on `readFile`. -/
abbrev Env := List (String × FileModel)

/-- Reading a file: `some` is a successful `readFile`, `none` the thrown
error of a missing or unreadable file. -/
def envRead (env : Env) (p : String) : Option FileModel :=
  assocGet env p

/-- The paths of the readable files of an environment. -/
def envDom (env : Env) : List String :=
  env.map (fun kv => kv.1)

/-- JavaScript `Set.add` on a list with set semantics. -/
def setAdd (s : List String) (k : String) : List String :=
  if k ∈ s then s else k :: s

/-- JavaScript `Set.delete` on a list with set semantics. -/
def setDelete (s : List String) (k : String) : List String :=
  s.filter (fun x => decide (x ≠ k))

/-- The gray and black path sets of one traversal invocation. -/
structure DfsState where
  gray : List String
  black : List String
deriving DecidableEq

/-- Embedding of `moveTo(graySet, blackSet, key)` acting on a traversal
state: add to black, delete from gray. -/
def moveTo (st : DfsState) (key : String) : DfsState :=
  { gray := setDelete st.gray key, black := setAdd st.black key }

/-- Embedding of `isExample`: the path, split at the path separator, has a
segment `examples`. -/
def isExample (filePath : String) : Bool :=
  (jsSplit filePath '/').any (fun name => decide (name = "examples"))

/-- Embedding of `jsonParse`: one `JSON_PARSE` finding per parser error, plus
the (possibly null) document. -/
def jsonParse (fileName : String) (fm : FileModel) : List Err × Option JsonObjectModel :=
  (fm.parseErrors.map (fun pe =>
    { code := ErrCode.JSON_PARSE,
      message := "The file is not a valid JSON file.",
      level := ErrLevel.error,
      path := fileName,
      errUrl := some pe.url,
      errPosition := some pe.position }), fm.document)

/-- The outbound reference targets actually walked for a parsed file: a null
document yields no references (`getRefs(null)` is empty). -/
def effectiveRefs (fm : FileModel) : List String :=
  match fm.document with
  | none => []
  | some _ => fm.refs

/-- The `NO_JSON_FILE_FOUND` finding yielded when `readFile` throws. -/
def noJsonFileFoundErr (current : Specification) : Err :=
  { code := ErrCode.NO_JSON_FILE_FOUND,
    message := "The JSON file is not found but it is referenced from the readme file.",
    readMeUrl := some current.readMePath,
    level := ErrLevel.error,
    jsonUrl := some current.path,
    path := current.path }

/-- The `CIRCULAR_REFERENCE` finding yielded when a walked reference target
is gray, attributed to the node holding the back-edge. -/
def circularReferenceErr (current : Specification) : Err :=
  { code := ErrCode.CIRCULAR_REFERENCE,
    message := "The JSON file has a circular reference.",
    readMeUrl := some current.readMePath,
    level := ErrLevel.warning,
    jsonUrl := some current.path,
    path := current.path }

/-- The child specification constructed for a walked reference target. -/
def refSpecification (current : Specification) (refFileName : String) : Specification :=
  { path := refFileName,
    readMePath := current.readMePath,
    kind := if isExample refFileName then SpecKind.EXAMPLE else SpecKind.SWAGGER }

/-- The gray-target test at the head of the reference loop (`src/index.ts`
lines 401-411): a gray target emits `CIRCULAR_REFERENCE` attributed to
`current` and is forced from gray to black at once. -/
def circStep (current : Specification) (st : DfsState) (refFileName : String) :
    List Err × DfsState :=
  if refFileName ∈ st.gray then ([circularReferenceErr current], moveTo st refFileName)
  else ([], st)

/-- The reference loop of `DFSTraversalValidate` (`src/index.ts` lines
400-420), parametrized by the recursive visit at the remaining fuel: for each
target, a gray target emits `CIRCULAR_REFERENCE` attributed to `current` and
is forced to black; a target still not black is then visited recursively. -/
def dfsRefs (visit : Specification → DfsState → Option (List Err × DfsState))
    (current : Specification) : List String → DfsState → Option (List Err × DfsState)
  | [], st => some ([], st)
  | refFileName :: rest, st =>
    match (if refFileName ∈ (circStep current st refFileName).2.black
           then some ([], (circStep current st refFileName).2)
           else visit (refSpecification current refFileName) (circStep current st refFileName).2) with
    | none => none
    | some (es, st2) =>
      match dfsRefs visit current rest st2 with
      | none => none
      | some (es2, st3) => some ((circStep current st refFileName).1 ++ es ++ es2, st3)

/-- The entry transition of `DFSTraversalValidate` (`src/index.ts` lines
370-372): a node not yet black is marked gray. -/
def enterGray (current : Specification) (st : DfsState) : DfsState :=
  if current.path ∈ st.black then st
  else { st with gray := setAdd st.gray current.path }

/-- The per-node findings of `DFSTraversalValidate` for a readable file
(`src/index.ts` lines 390-396): the parser errors, then — for swagger nodes
with a non-null document — the rule findings. -/
def nodeErrs (current : Specification) (fm : FileModel) : List Err :=
  (jsonParse current.path fm).1 ++
    (if current.kind = SpecKind.SWAGGER then
      match fm.document with
      | some doc => validateSpecificationAPIVersion current doc ++ validateFileLocation current doc
      | none => []
    else [])

/-- The reference targets walked from a node (`src/index.ts` line 399):
example files ignore their references. -/
def walkedRefs (current : Specification) (fm : FileModel) : List String :=
  if current.kind = SpecKind.SWAGGER then effectiveRefs fm else []

/-- Embedding of `DFSTraversalValidate` (`src/index.ts` lines 364-422), with
an explicit fuel so the function is total; `none` means the fuel ran out.
Faithful to the source: a node not yet black is marked gray on entry; an
unreadable file emits `NO_JSON_FILE_FOUND` and returns at once (without any
transition to black); parser errors, then for swagger nodes the rule
findings, are emitted; references are walked only for swagger nodes; after
the loop the node is moved from gray to black. -/
def dfsVisit (env : Env) : Nat → Specification → DfsState → Option (List Err × DfsState)
  | 0, _, _ => none
  | fuel + 1, current, st =>
    match envRead env current.path with
    | none => some ([noJsonFileFoundErr current], enterGray current st)
    | some fm =>
      match dfsRefs (dfsVisit env fuel) current (walkedRefs current fm) (enterGray current st) with
      | none => none
      | some (loopErrs, st2) => some (nodeErrs current fm ++ loopErrs, moveTo st2 current.path)

/-- The root loop of `validateInputFiles`: walk every root specification with
the shared gray and black sets. -/
def walkRoots (env : Env) (fuel : Nat) : List Specification → DfsState → Option (List Err × DfsState)
  | [], st => some ([], st)
  | root :: rest, st =>
    match dfsVisit env fuel root st with
    | none => none
    | some (es, st1) =>
      match walkRoots env fuel rest st1 with
      | none => none
      | some (es2, st2) => some (es ++ es2, st2)

/-- The `UNREFERENCED_JSON_FILE` finding emitted for an orphan file, message
phrased by the specification's kind. -/
def unreferencedError (spec : Specification) : Err :=
  { code := ErrCode.UNREFERENCED_JSON_FILE,
    message :=
      if spec.kind = SpecKind.SWAGGER then "The swagger JSON file is not referenced from the readme file."
      else "The example JSON file is not referenced from the swagger file.",
    level := ErrLevel.error,
    readMeUrl := some spec.readMePath,
    jsonUrl := some spec.path,
    path := spec.path }

/-- Embedding of `validateInputFiles` (`src/index.ts` lines 464-492): the
walk over all roots followed by the orphan report for every file of
`allInputFileSet` whose path is not black. -/
def validateInputFiles (env : Env) (fuel : Nat)
    (inputFileSet allInputFileSet : List Specification) : Option (List Err) :=
  match walkRoots env fuel inputFileSet { gray := [], black := [] } with
  | none => none
  | some (es, st) =>
    some (es ++ (allInputFileSet.filter
      (fun spec => !(st.black.contains spec.path))).map unreferencedError)

/-- Containment of traversal states: every path gray or black in the first
state is gray or black in the second.  The union of the gray and black sets
only ever grows during the walk. -/
def stMono (s t : DfsState) : Prop :=
  ∀ p : String, (p ∈ s.gray ∨ p ∈ s.black) → (p ∈ t.gray ∨ p ∈ t.black)

/-- The termination measure of the walk: the number of readable paths that
are neither gray nor black yet. -/
def freeCount (env : Env) (st : DfsState) : Nat :=
  (envDom env).countP (fun p => decide (¬ (p ∈ st.gray ∨ p ∈ st.black)))

/-- Embedding of the regular-expression test `/^\d{4}-\d{2}-\d{2}$/` on a
character list: exactly a four-digit, two-digit, two-digit date with dash
separators. -/
def isDateChars : List Char → Bool
  | [a, b, c, d, e, f, g, h, i, j] =>
    a.isDigit && b.isDigit && c.isDigit && d.isDigit && decide (e = '-') &&
      f.isDigit && g.isDigit && decide (h = '-') && i.isDigit && j.isDigit
  | _ => false

/-- Embedding of the version-segment regular expression
`/^\d{4}-\d{2}-\d{2}(|-preview)$/`: a date, optionally followed by the
literal suffix `-preview`. -/
def isApiVersionSegment (s : String) : Bool :=
  isDateChars s.toList ||
    (isDateChars (s.toList.take 10) &&
      decide (s.toList.drop 10 = ['-', 'p', 'r', 'e', 'v', 'i', 'e', 'w']))

/-- Embedding of `getVersionFromInputFile` (`src/index.ts` lines 145-156):
split the path on `/`, drop the final segment (the file name), and when more
than one segment remains return the first segment matching the version
pattern. -/
def getVersionFromInputFile (filePath : String) : Option String :=
  if 1 < ((jsSplit filePath '/').dropLast).length then
    ((jsSplit filePath '/').dropLast).find? isApiVersionSegment
  else none

/-- A fenced code block of a manifest document: its info string and literal
content, absent values modelled as `none` (commonmark reports `null`). -/
structure CodeBlock where
  info : Option String
  literal : Option String
deriving DecidableEq

/-- A parsed manifest markdown document as seen by the manifest-level
checks.  `codeBlocks` is the heading-keyed code-block table of
`getCodeBlocksAndHeadings` in key order; `yamlTag` records the outcome of
`YAML.safeLoad` on each content that loads to a truthy document, projected
to its `tag` field (`none` entry value means the document has no tag field;
an absent key means `safeLoad` failed or returned a falsy value);
`inputFiles` is the per-tag declared input file list of
`getInputFilesForTag`; `autoRest` is the `isAutoRestMd` marker-block test.
The markdown, YAML and manifest readers are external collaborators, so the
model carries their outcomes as finite data. -/
structure MDModel where
  autoRest : Bool
  codeBlocks : List (String × CodeBlock)
  yamlTag : List (String × Option String)
  inputFiles : List (String × List String)
deriving DecidableEq

/-- JavaScript truthiness of a possibly-absent string: present and
non-empty. -/
def jsTruthyOpt (s : Option String) : Bool :=
  match s with
  | some t => decide (t ≠ "")
  | none => false

/-- The `latestDefinition && latestDefinition.tag` test: the YAML load of the
content is truthy and declares a truthy tag. -/
def loadTag (m : MDModel) (content : String) : Option String :=
  match assocGet m.yamlTag content with
  | some (some t) => if t = "" then none else some t
  | some none => none
  | none => none

/-- The code-block filter of the fallback loop of `getDefaultTag`: truthy
info string matching `/^(yaml|json)$/` after trim and lower-casing. -/
def isYamlJsonInfo (s : String) : Bool :=
  decide (jsToLowerCase (jsTrim s) = "yaml") || decide (jsToLowerCase (jsTrim s) = "json")

/-- The fallback loop of `getDefaultTag` (`src/index.ts` lines 129-138): the
first code block with truthy yaml/json info and truthy literal whose YAML
load declares a truthy tag. -/
def firstBlockTag (m : MDModel) : List (String × CodeBlock) → Option String
  | [] => none
  | (_, b) :: rest =>
    if jsTruthyOpt b.info && jsTruthyOpt b.literal && isYamlJsonInfo (b.info.getD "") then
      match loadTag m (b.literal.getD "") with
      | some t => some t
      | none => firstBlockTag m rest
    else firstBlockTag m rest

/-- Embedding of `getDefaultTag` (`src/index.ts` lines 117-140): the tag of
the `Basic Information` code block when that block exists with truthy
literal and its YAML load declares a truthy tag, otherwise the first
yaml/json code block declaring a tag. -/
def getDefaultTag (m : MDModel) : Option String :=
  let headerTag : Option String :=
    match assocGet m.codeBlocks "Basic Information" with
    | some b => if jsTruthyOpt b.literal then loadTag m (b.literal.getD "") else none
    | none => none
  match headerTag with
  | some t => some t
  | none => firstBlockTag m m.codeBlocks

/-- The declared input files of a tag, empty when the manifest reader
returns undefined for the tag. -/
def inputFilesForTag (m : MDModel) (tag : String) : List String :=
  (assocGet m.inputFiles tag).getD []

/-- The version-collecting loop of `isContainsMultiVersion`: add each file's
extracted version to the set and stop with `true` as soon as the set holds
more than one version. -/
def multiVersionLoop : List String → List String → Bool
  | _, [] => false
  | versions, f :: fs =>
    match getVersionFromInputFile f with
    | some v =>
      let versions2 := setAdd versions v
      if 1 < versions2.length then true else multiVersionLoop versions2 fs
    | none => multiVersionLoop versions fs

/-- Embedding of `isContainsMultiVersion` (`src/index.ts` lines 158-177). -/
def isContainsMultiVersion (m : MDModel) : Bool :=
  match getDefaultTag m with
  | none => false
  | some defaultTag =>
    match assocGet m.inputFiles defaultTag with
    | some files => multiVersionLoop [] files
    | none => false

/-- Embedding of `validateReadMeFile` (`src/index.ts` lines 427-453) on a
parsed manifest model: a `NOT_AUTOREST_MARKDOWN` finding when the marker
block is missing, then a `MULTIPLE_API_VERSION` finding naming the default
tag when the default tag's input files span several versions. -/
def validateReadMeFile (m : MDModel) (readMePath : String) : List Err :=
  (if !m.autoRest then
    [{ code := ErrCode.NOT_AUTOREST_MARKDOWN,
       message := "The `readme.md` is not an AutoRest markdown file.",
       readMeUrl := some readMePath,
       level := ErrLevel.error,
       path := readMePath,
       helpUrl := some "http://azure.github.io/autorest/user/literate-file-formats/configuration.html#the-file-format" }]
   else []) ++
  (if isContainsMultiVersion m then
    [{ code := ErrCode.MULTIPLE_API_VERSION,
       message := "The default tag contains multiple API versions swaggers.",
       readMeUrl := some readMePath,
       tag := getDefaultTag m,
       path := readMePath,
       level := ErrLevel.warning }]
   else [])

/-- JavaScript `Map.get` on the correlation map. -/
def mapGet (m : List (CorrKey × Err)) (k : CorrKey) : Option Err :=
  assocGet m k

/-- JavaScript `Map.delete` on the correlation map. -/
def mapDelete (m : List (CorrKey × Err)) (k : CorrKey) : List (CorrKey × Err) :=
  m.filter (fun kv => decide (kv.1 ≠ k))

/-- JavaScript `Map.set` on the correlation map: overwrite in place when the
key exists, append otherwise. -/
def mapSet (m : List (CorrKey × Err)) (k : CorrKey) (v : Err) : List (CorrKey × Err) :=
  if (m.find? (fun kv => decide (kv.1 = k))).isSome then
    m.map (fun kv => if kv.1 = k then (k, v) else kv)
  else m ++ [(k, v)]

/-- The correlation map built by `avocadoForDir` from a finding stream (`map.set(errorCorrelationId(e), e)` per finding, last write wins). -/
def buildErrMap (errs : List Err) : List (CorrKey × Err) :=
  errs.foldl (fun m e => mapSet m (errorCorrelationId e) e) []

/-- Embedding of `avocadoForDir` (`src/index.ts` lines 552-566) downstream
of the folder walk: collect the finding stream of `validateFolder` into the
correlation map, then delete every entry whose finding's `path` matches some
entry of the exclusion list.  The JavaScript `String.search` regular-
expression engine is an external collaborator, passed in as the abstract
match relation `search`. -/
def avocadoForDir (search : String → String → Bool) (errs : List Err)
    (exclude : List String) : List (CorrKey × Err) :=
  (buildErrMap errs).filter (fun kv => !(exclude.any (fun item => search kv.2.path item)))

/-- Modelled from the spec: `devOps.isPRRelatedError` lives in the module
`./dev-ops`, which is not under `src/`; section 4.7 step 3 of the spec says
a finding is related to the revision exactly when the changed-file set
intersects the finding's attributed paths, the attributed paths being the
finding's location fields.  -/
def errAttributedPaths (e : Err) : List String :=
  e.path :: [e.jsonUrl, e.readMeUrl, e.folderUrl].filterMap id

/-- Modelled from the spec: the changed-file set intersects the finding's
attributed paths. -/
def isPRRelatedError (changes : List String) (e : Err) : Bool :=
  changes.any (fun c => c ∈ errAttributedPaths e)

/-- One iteration of the suppression loop of `avocadoForDevOps`: when the
source map holds the key and the finding is unrelated to the changed files,
delete the key. -/
def diffStep (changes : List String) (src : List (CorrKey × Err)) (k : CorrKey) :
    List (CorrKey × Err) :=
  match mapGet src k with
  | some e => if isPRRelatedError changes e = false then mapDelete src k else src
  | none => src

/-- The suppression loop of `avocadoForDevOps` (`src/index.ts` lines
613-618): for every correlation key of the target run, when the source run
holds the same key and the finding is unrelated to the changed files, delete
it from the source map. -/
def diffRemoveExisting (changes : List String) (targetKeys : List CorrKey)
    (sourceMap : List (CorrKey × Err)) : List (CorrKey × Err) :=
  targetKeys.foldl (diffStep changes) sourceMap

/-- The diff engine's per-directory emission (`src/index.ts` lines 601-621):
the values remaining in the source map after the suppression loop. -/
def diffEngineNewErrors (changes : List String) (targetMap sourceMap : List (CorrKey × Err)) : List Err :=
  (diffRemoveExisting changes (targetMap.map (fun kv => kv.1)) sourceMap).map (fun kv => kv.2)

/-- Environment for the unreadable-file scenario: one readable root
referencing the missing file `spec/m.json` twice and the missing file
`spec/n.json` once. -/
def envMissing : Env :=
  [("spec/r.json", { parseErrors := [], document := some { info := none, host := none },
                     refs := ["spec/m.json", "spec/m.json", "spec/n.json"] })]

/-- The root specification of the unreadable-file scenario. -/
def specMissingRoot : Specification :=
  { path := "spec/r.json", readMePath := "spec/readme.md", kind := SpecKind.SWAGGER }

/-- Environment for the two-file cycle scenario: readable, parseable files
`spec/a.json` and `spec/b.json`, each carrying one parser error so that a
re-walk of a node would be visible in the finding stream, with `a`
referencing `b` and `b` referencing `a`. -/
def envCycle : Env :=
  [("spec/a.json", { parseErrors := [{ url := "spec/a.json", position := 5 }],
                     document := some { info := none, host := none }, refs := ["spec/b.json"] }),
   ("spec/b.json", { parseErrors := [{ url := "spec/b.json", position := 7 }],
                     document := some { info := none, host := none }, refs := ["spec/a.json"] })]

/-- Root specification for file `a` of the cycle scenario. -/
def specCycleA : Specification :=
  { path := "spec/a.json", readMePath := "spec/readme.md", kind := SpecKind.SWAGGER }

/-- Root specification for file `b` of the cycle scenario. -/
def specCycleB : Specification :=
  { path := "spec/b.json", readMePath := "spec/readme.md", kind := SpecKind.SWAGGER }

/-- A concrete non-`MISSING_README` finding used to exercise the exclusion
filter of the single-directory run. -/
def excludeScenarioErr : Err :=
  circularReferenceErr { path := "spec/a.json", readMePath := "spec/readme.md",
                         kind := SpecKind.SWAGGER }

/-- A concrete pre-existing orphan finding used to exercise the diff
engine. -/
def diffScenarioErr : Err :=
  unreferencedError { path := "spec/b.json", readMePath := "spec/readme.md",
                      kind := SpecKind.SWAGGER }

/-- Environment for the orphan scenario: a single readable file. -/
def envOrphan : Env :=
  [("spec/a.json", { parseErrors := [], document := some { info := none, host := none },
                     refs := [] })]

/-- The declared root of the orphan scenario. -/
def specOrphanA : Specification :=
  { path := "spec/a.json", readMePath := "spec/readme.md", kind := SpecKind.SWAGGER }

/-- The undeclared on-disk file of the orphan scenario. -/
def specOrphanB : Specification :=
  { path := "spec/b.json", readMePath := "spec/readme.md", kind := SpecKind.SWAGGER }

/-- A concrete manifest model whose Basic Information code block declares a
default tag whose input files span two api versions. -/
def multiVersionScenario : MDModel :=
  { autoRest := true,
    codeBlocks := [("Basic Information", { info := some "yaml", literal := some "tag: pkg-2021" })],
    yamlTag := [("tag: pkg-2021", some "pkg-2021")],
    inputFiles := [("pkg-2021", ["stable/2020-01-01/a.json", "stable/2021-02-02/b.json"])] }

/-- The `MULTIPLE_API_VERSION` finding expected for the concrete manifest
model above. -/
def multiVersionFinding : Err :=
  { code := ErrCode.MULTIPLE_API_VERSION,
    message := "The default tag contains multiple API versions swaggers.",
    readMeUrl := some "spec/readme.md",
    tag := getDefaultTag multiVersionScenario,
    path := "spec/readme.md",
    level := ErrLevel.warning }

/-- C1: the claimed invariant fails on the code.  The claim states that after
a root's traversal completes no visited path — including a path whose file
could not be read — remains gray.  In `DFSTraversalValidate` the catch branch
for an unreadable file yields `NO_JSON_FILE_FOUND` and returns before the
final `moveTo`, so the path stays gray forever: here `spec/n.json` is still
gray and never black after the traversal completed, and the stale gray entry
for `spec/m.json` even produces a spurious `CIRCULAR_REFERENCE` finding on
the second reference to that missing file although the environment is
acyclic. -/
theorem missing_file_stays_gray :
    ∃ es st, walkRoots envMissing 4 [specMissingRoot] { gray := [], black := [] } = some (es, st) ∧
      "spec/n.json" ∈ st.gray ∧ "spec/n.json" ∉ st.black ∧
      es.countP (fun e => decide (e.code = ErrCode.CIRCULAR_REFERENCE)) = 1 := by
  refine ⟨_, _, rfl, ?_, ?_, ?_⟩ <;> decide

/-- C2: over a root set declaring `a` and `b` with `a` referencing `b` and
`b` referencing `a`, the walker emits exactly one `CIRCULAR_REFERENCE`
finding, with Warning severity, attributed to `spec/b.json` — the node at
which the back-edge to the gray target `a` was discovered, not the cycle's
earliest node `a` — both files end black, nothing stays gray, and the forced-
black target `a` is not re-walked: its parser error appears exactly once in
the stream. -/
theorem cycle_detection_single_warning :
    ∃ es st, walkRoots envCycle 5 [specCycleA, specCycleB] { gray := [], black := [] } = some (es, st) ∧
      es.countP (fun e => decide (e.code = ErrCode.CIRCULAR_REFERENCE)) = 1 ∧
      (∀ e ∈ es, e.code = ErrCode.CIRCULAR_REFERENCE →
        e.level = ErrLevel.warning ∧ e.path = "spec/b.json" ∧ e.jsonUrl = some "spec/b.json") ∧
      "spec/a.json" ∈ st.black ∧ "spec/b.json" ∈ st.black ∧ st.gray = [] ∧
      es.countP (fun e => decide (e.path = "spec/a.json")) = 1 := by
  refine ⟨_, _, rfl, ?_, ?_, ?_, ?_, ?_, ?_⟩ <;> decide

/-- C6 counterexample: the claim says a document that declares no version
field yields no `INCONSISTENT_API_VERSION` finding, but
`validateSpecificationAPIVersion` only tests that `document.info` is present:
for an info object without a version field the code coerces `undefined` to
the text `undefined`, fails the path containment test and emits the finding
anyway. -/
theorem api_version_no_field_still_fires :
    validateSpecificationAPIVersion
        { path := "spec/stable/v1/a.json", readMePath := "spec/readme.md", kind := SpecKind.SWAGGER }
        { info := some { version := none }, host := none } ≠ [] ∧
      ({ info := some { version := none }, host := none } : JsonObjectModel).info
        = some { version := none } := by
  constructor
  · decide
  · rfl

/-- C6 as amended: `validateSpecificationAPIVersion` emits a finding exactly
when the document has an `info` object and the specification's path does not
contain the JavaScript string coercion of `info.version` (the declared
version string, or the literal text `undefined` when the info object lacks a
version field); every emitted finding has code `INCONSISTENT_API_VERSION`
and severity Error. -/
theorem api_version_rule_characterization (s : Specification) (d : JsonObjectModel) :
    (validateSpecificationAPIVersion s d ≠ [] ↔
      ∃ i, d.info = some i ∧ jsIncludes s.path (jsUndefinedToString i.version) = false) ∧
    (∀ e ∈ validateSpecificationAPIVersion s d,
      e.code = ErrCode.INCONSISTENT_API_VERSION ∧ e.level = ErrLevel.error) := by
  unfold validateSpecificationAPIVersion
  constructor
  · match hd : d.info with
    | none => simp
    | some i =>
      by_cases hinc : jsIncludes s.path (jsUndefinedToString i.version) = true
      · simp [hinc]
      · simp only [Bool.not_eq_true] at hinc
        simp [hinc]
  · match hd : d.info with
    | none => simp
    | some i =>
      by_cases hinc : jsIncludes s.path (jsUndefinedToString i.version) = true
      · simp [hinc]
      · simp only [Bool.not_eq_true] at hinc
        simp [hinc]

/-- Witness for the amended C6: at a concrete specification and document the
rule fires and the emitted finding carries the stated code and severity. -/
theorem api_version_rule_characterization_witness :
    validateSpecificationAPIVersion
        { path := "spec/x/a.json", readMePath := "spec/readme.md", kind := SpecKind.SWAGGER }
        { info := some { version := some "2021-01-01" }, host := none } ≠ [] ∧
      (∀ e ∈ validateSpecificationAPIVersion
        { path := "spec/x/a.json", readMePath := "spec/readme.md", kind := SpecKind.SWAGGER }
        { info := some { version := some "2021-01-01" }, host := none },
        e.code = ErrCode.INCONSISTENT_API_VERSION ∧ e.level = ErrLevel.error) :=
  ⟨(api_version_rule_characterization _ _).1.mpr ⟨_, rfl, by decide⟩,
   (api_version_rule_characterization _ _).2⟩

/-- C7: the correlation key is a deterministic function of a finding's code
and its code-specific projected fields only.  Two findings with the same code
whose projected fields agree — the attributed json url for
`UNREFERENCED_JSON_FILE`, `CIRCULAR_REFERENCE`, `INCONSISTENT_API_VERSION`
and `INVALID_FILE_LOCATION`, the readme url for `NO_JSON_FILE_FOUND`,
`NOT_AUTOREST_MARKDOWN` and `MULTIPLE_API_VERSION`, the folder url for
`MISSING_README`, and the parser url plus position for `JSON_PARSE` —
receive equal keys, whatever their message text, path, severity, tag or help
url. -/
theorem correlation_key_projection (e1 e2 : Err) (hc : e1.code = e2.code)
    (hp : specProjectionEq e1 e2 = true) :
    errorCorrelationId e1 = errorCorrelationId e2 := by
  obtain ⟨c1, l1, m1, p1, j1, r1, f1, u1, t1, eu1, ep1⟩ := e1
  obtain ⟨c2, l2, m2, p2, j2, r2, f2, u2, t2, eu2, ep2⟩ := e2
  simp only at hc
  subst hc
  cases c1 <;> simp_all [specProjectionEq, errorCorrelationId]

/-- Witness for C7: two concrete `CIRCULAR_REFERENCE` findings that differ in
message and path but share the attributed json url receive equal correlation
keys. -/
theorem correlation_key_projection_witness :
    errorCorrelationId
        { code := ErrCode.CIRCULAR_REFERENCE, level := ErrLevel.warning,
          message := "The JSON file has a circular reference.",
          path := "spec/a.json", jsonUrl := some "spec/a.json" } =
      errorCorrelationId
        { code := ErrCode.CIRCULAR_REFERENCE, level := ErrLevel.error,
          message := "another wording entirely",
          path := "spec/other.json", jsonUrl := some "spec/a.json" } :=
  correlation_key_projection _ _ rfl (by decide)

/-- C9: in a single-directory run, the exclusion filter applies to every
finding of every code: no entry whose finding's path matches some exclusion
entry under the search relation survives in the returned map. -/
theorem exclude_filter_all_codes (search : String → String → Bool) (errs : List Err)
    (exclude : List String) (kv : CorrKey × Err)
    (hm : kv ∈ avocadoForDir search errs exclude) :
    exclude.any (fun item => search kv.2.path item) = false := by
  unfold avocadoForDir at hm
  have h := (List.mem_filter.mp hm).2
  simpa using h

/-- Witness for C9: a concrete `CIRCULAR_REFERENCE` finding — not a
`MISSING_README` finding — whose path avoids the exclusion pattern survives,
and the theorem applies to it. -/
theorem exclude_filter_all_codes_witness :
    (["excluded"].any (fun item => jsIncludes excludeScenarioErr.path item)) = false :=
  exclude_filter_all_codes (fun p item => jsIncludes p item)
    [excludeScenarioErr] ["excluded"]
    (errorCorrelationId excludeScenarioErr, excludeScenarioErr)
    (by decide)

/-- C10: `getVersionFromInputFile` inspects only the directory segments of
the path: its result is unchanged between paths with equal directory
segments (so the file name never contributes), it is `none` whenever fewer
than two segments precede the file name, and a returned version is the first
directory segment matching the version pattern. -/
theorem version_segment_dir_only (p q : String) :
    ((jsSplit p '/').dropLast = (jsSplit q '/').dropLast →
      getVersionFromInputFile p = getVersionFromInputFile q) ∧
    ((jsSplit p '/').dropLast.length ≤ 1 → getVersionFromInputFile p = none) ∧
    (∀ v, getVersionFromInputFile p = some v →
      isApiVersionSegment v = true ∧
        (jsSplit p '/').dropLast.find? isApiVersionSegment = some v ∧
        v ∈ (jsSplit p '/').dropLast) := by
  refine ⟨?_, ?_, ?_⟩
  · intro h
    unfold getVersionFromInputFile
    rw [h]
  · intro h
    have hn : ¬ 1 < ((jsSplit p '/').dropLast).length := by omega
    unfold getVersionFromInputFile
    rw [if_neg hn]
  · intro v hv
    unfold getVersionFromInputFile at hv
    by_cases hlen : 1 < ((jsSplit p '/').dropLast).length
    · rw [if_pos hlen] at hv
      exact ⟨List.find?_some hv, hv, List.mem_of_find?_eq_some hv⟩
    · rw [if_neg hlen] at hv
      cases hv

/-- Witness for C10: a version that appears only in the file name does not
contribute — two paths with the same directory segments give the same
result — and a path with a single directory segment yields nothing. -/
theorem version_segment_dir_only_witness :
    getVersionFromInputFile "a/2020-01-01/f.json"
        = getVersionFromInputFile "a/2020-01-01/zz2021-02-02.json" ∧
      getVersionFromInputFile "2020-01-01/x.json" = none :=
  ⟨(version_segment_dir_only "a/2020-01-01/f.json" "a/2020-01-01/zz2021-02-02.json").1 (by decide),
   (version_segment_dir_only "2020-01-01/x.json" "2020-01-01/x.json").2.1 (by decide)⟩

/-- Entries of one suppression iteration come from the incoming map. -/
theorem diffStep_subset (changes : List String) (src : List (CorrKey × Err)) (k : CorrKey)
    (kv : CorrKey × Err) (h : kv ∈ diffStep changes src k) : kv ∈ src := by
  unfold diffStep at h
  split at h
  · split at h
    · exact (List.mem_filter.mp h).1
    · exact h
  · exact h

/-- Entries of the suppressed source map come from the source map. -/
theorem diffRemoveExisting_subset (changes : List String) :
    ∀ (ks : List CorrKey) (src : List (CorrKey × Err)) (kv : CorrKey × Err),
      kv ∈ diffRemoveExisting changes ks src → kv ∈ src := by
  intro ks
  induction ks with
  | nil => intro src kv h; exact h
  | cons k rest ih =>
    intro src kv h
    unfold diffRemoveExisting at h ih
    simp only [List.foldl_cons] at h
    exact diffStep_subset changes src k kv (ih _ kv h)

/-- A successful association lookup returns a member with the looked-up
key. -/
theorem assocGet_eq_some_mem {κ α : Type} [DecidableEq κ] (l : List (κ × α)) (k : κ) (v : α)
    (h : assocGet l k = some v) : (k, v) ∈ l := by
  unfold assocGet at h
  match hf : l.find? (fun kv => decide (kv.1 = k)) with
  | some kv =>
    rw [hf] at h
    have hm := List.mem_of_find?_eq_some hf
    have hk := List.find?_some hf
    simp only [decide_eq_true_eq] at hk
    cases h
    cases kv
    simp only at hk
    subst hk
    exact hm
  | none => rw [hf] at h; cases h

/-- A failed association lookup means no member has the looked-up key. -/
theorem assocGet_eq_none_forall {κ α : Type} [DecidableEq κ] (l : List (κ × α)) (k : κ)
    (h : assocGet l k = none) : ∀ kv ∈ l, kv.1 ≠ k := by
  unfold assocGet at h
  match hf : l.find? (fun kv => decide (kv.1 = k)) with
  | some kv => rw [hf] at h; cases h
  | none =>
    intro kv hkv
    have := List.find?_eq_none.mp hf kv hkv
    simpa using this

/-- When every incoming finding is unrelated to the changed files, one
suppression iteration leaves no entry carrying the processed key. -/
theorem diffStep_not_key (changes : List String) (src : List (CorrKey × Err)) (k : CorrKey)
    (hunrel : ∀ kv ∈ src, isPRRelatedError changes kv.2 = false)
    (kv : CorrKey × Err) (h : kv ∈ diffStep changes src k) : kv.1 ≠ k := by
  unfold diffStep at h
  split at h
  · rename_i e hget
    have hrel : isPRRelatedError changes e = false :=
      hunrel (k, e) (assocGet_eq_some_mem src k e hget)
    rw [if_pos hrel] at h
    have := (List.mem_filter.mp h).2
    simpa using this
  · rename_i hget
    exact assocGet_eq_none_forall src k hget kv h

/-- When every source finding is unrelated to the changed files, the
suppression loop removes every entry whose key it processes. -/
theorem diffRemoveExisting_keys_gone (changes : List String) :
    ∀ (ks : List CorrKey) (src : List (CorrKey × Err)),
      (∀ kv ∈ src, isPRRelatedError changes kv.2 = false) →
      ∀ kv ∈ diffRemoveExisting changes ks src, kv.1 ∉ ks := by
  intro ks
  induction ks with
  | nil => intro src _ kv _; simp
  | cons k rest ih =>
    intro src hunrel kv hkv
    unfold diffRemoveExisting at hkv ih
    simp only [List.foldl_cons] at hkv
    have hunrel1 : ∀ kv2 ∈ diffStep changes src k, isPRRelatedError changes kv2.2 = false :=
      fun kv2 h2 => hunrel kv2 (diffStep_subset changes src k kv2 h2)
    have hrest : kv.1 ∉ rest := ih (diffStep changes src k) hunrel1 kv hkv
    have hmem1 : kv ∈ diffStep changes src k :=
      diffRemoveExisting_subset changes rest (diffStep changes src k) kv hkv
    have hne : kv.1 ≠ k := diffStep_not_key changes src k hunrel kv hmem1
    simp only [List.mem_cons]
    rintro (h | h)
    · exact hne h
    · exact hrest h

/-- C4: when every correlation key of the source run is present in the
target run and no source finding's attributed paths intersect the changed
files, the diff engine removes every pre-existing finding from the source
map and emits zero findings. -/
theorem diff_engine_suppresses_preexisting (changes : List String)
    (targetMap sourceMap : List (CorrKey × Err))
    (hkeys : ∀ kv ∈ sourceMap, kv.1 ∈ targetMap.map (fun x => x.1))
    (hunrel : ∀ kv ∈ sourceMap, isPRRelatedError changes kv.2 = false) :
    diffEngineNewErrors changes targetMap sourceMap = [] := by
  unfold diffEngineNewErrors
  have h1 : diffRemoveExisting changes (targetMap.map (fun kv => kv.1)) sourceMap = [] := by
    rw [List.eq_nil_iff_forall_not_mem]
    intro kv hkv
    have hsub := diffRemoveExisting_subset changes _ _ kv hkv
    have hgone := diffRemoveExisting_keys_gone changes _ _ hunrel kv hkv
    exact hgone (hkeys kv hsub)
  rw [h1]
  rfl

/-- Witness for C4: identical target and source maps holding one
`UNREFERENCED_JSON_FILE` finding, a reported diff touching an unrelated
file; the diff engine emits nothing. -/
theorem diff_engine_suppresses_preexisting_witness :
    diffEngineNewErrors ["unrelated/changed.json"]
        [(errorCorrelationId diffScenarioErr, diffScenarioErr)]
        [(errorCorrelationId diffScenarioErr, diffScenarioErr)] = [] :=
  diff_engine_suppresses_preexisting _ _ _ (by decide) (by decide)

/-- The set-semantics add on lists maps to a finset insertion. -/
theorem setAdd_toFinset (s : List String) (k : String) :
    (setAdd s k).toFinset = insert k s.toFinset := by
  unfold setAdd
  by_cases h : k ∈ s
  · rw [if_pos h]
    exact (Finset.insert_eq_self.mpr (List.mem_toFinset.mpr h)).symm
  · rw [if_neg h]
    exact List.toFinset_cons

/-- The set-semantics add preserves distinctness. -/
theorem setAdd_nodup (s : List String) (k : String) (h : s.Nodup) : (setAdd s k).Nodup := by
  unfold setAdd
  by_cases hk : k ∈ s
  · rw [if_pos hk]; exact h
  · rw [if_neg hk]; exact List.nodup_cons.mpr ⟨hk, h⟩

/-- The early-exit version-collecting loop returns true exactly when the
accumulated versions together with the versions extracted from the remaining
files number at least two, provided the accumulator is still below the exit
threshold. -/
theorem multiVersionLoop_iff :
    ∀ (files versions : List String), versions.Nodup → versions.length ≤ 1 →
      (multiVersionLoop versions files = true ↔
        2 ≤ (versions ++ files.filterMap getVersionFromInputFile).toFinset.card) := by
  intro files
  induction files with
  | nil =>
    intro versions hnd hlen
    have hcard : (versions ++ ([] : List String).filterMap getVersionFromInputFile).toFinset.card ≤ 1 := by
      simp only [List.filterMap_nil, List.append_nil]
      exact le_trans (List.toFinset_card_le versions) hlen
    simp only [multiVersionLoop]
    constructor
    · intro h; cases h
    · intro h; omega
  | cons f fs ih =>
    intro versions hnd hlen
    simp only [multiVersionLoop]
    cases hgv : getVersionFromInputFile f with
    | none =>
      simp only [hgv, List.filterMap_cons, List.append_nil]
      exact ih versions hnd hlen
    | some v =>
      simp only [hgv, List.filterMap_cons]
      by_cases h2 : 1 < (setAdd versions v).length
      · rw [if_pos h2]
        have hsub : insert v versions.toFinset ⊆ (versions ++ v :: fs.filterMap getVersionFromInputFile).toFinset := by
          intro x hx
          rw [List.toFinset_append, List.toFinset_cons]
          rcases Finset.mem_insert.mp hx with h | h
          · exact Finset.mem_union_right _ (Finset.mem_insert.mpr (Or.inl h))
          · exact Finset.mem_union_left _ h
        have hc2 : 2 ≤ (insert v versions.toFinset).card := by
          rw [← setAdd_toFinset, List.toFinset_card_of_nodup (setAdd_nodup versions v hnd)]
          omega
        have := le_trans hc2 (Finset.card_le_card hsub)
        simp only [this, iff_true]
      · rw [if_neg h2]
        have hnd2 : (setAdd versions v).Nodup := setAdd_nodup versions v hnd
        have hlen2 : (setAdd versions v).length ≤ 1 := by omega
        rw [ih (setAdd versions v) hnd2 hlen2]
        have hset : ((setAdd versions v) ++ fs.filterMap getVersionFromInputFile).toFinset
            = (versions ++ v :: fs.filterMap getVersionFromInputFile).toFinset := by
          rw [List.toFinset_append, List.toFinset_append, List.toFinset_cons,
            setAdd_toFinset, Finset.insert_union, Finset.union_insert]
        rw [hset]

/-- `isContainsMultiVersion` holds exactly when a default tag resolves and
its declared input files span at least two distinct extracted versions. -/
theorem isContainsMultiVersion_iff (m : MDModel) :
    isContainsMultiVersion m = true ↔
      ∃ t, getDefaultTag m = some t ∧
        2 ≤ ((inputFilesForTag m t).filterMap getVersionFromInputFile).toFinset.card := by
  unfold isContainsMultiVersion
  cases hdt : getDefaultTag m with
  | none => simp
  | some t =>
    cases hif : assocGet m.inputFiles t with
    | none =>
      unfold inputFilesForTag
      simp [hif]
    | some files =>
      unfold inputFilesForTag
      simp only [hif]
      rw [multiVersionLoop_iff files [] List.nodup_nil (by simp)]
      simp [hif]

/-- C8: `validateReadMeFile` emits a `MULTIPLE_API_VERSION` finding exactly
when the manifest resolves a default tag — the Basic Information block's
tag, falling back to the first yaml/json code block declaring one, which is
what `getDefaultTag` computes — and the tag's declared input files contain
at least two distinct version-pattern segments; the finding has Warning
severity and names the default tag. -/
theorem default_tag_multi_version_iff (m : MDModel) (p : String) :
    ((validateReadMeFile m p).any (fun e => decide (e.code = ErrCode.MULTIPLE_API_VERSION)) = true ↔
      ∃ t, getDefaultTag m = some t ∧
        2 ≤ ((inputFilesForTag m t).filterMap getVersionFromInputFile).toFinset.card) ∧
    (∀ e ∈ validateReadMeFile m p, e.code = ErrCode.MULTIPLE_API_VERSION →
      e.level = ErrLevel.warning ∧ e.tag = getDefaultTag m) := by
  constructor
  · rw [← isContainsMultiVersion_iff m]
    unfold validateReadMeFile
    cases har : m.autoRest <;> by_cases hmv : isContainsMultiVersion m = true <;>
      simp_all
  · intro e he hcode
    unfold validateReadMeFile at he
    rw [List.mem_append] at he
    rcases he with he | he
    · by_cases har : m.autoRest = true
      · simp [har] at he
      · simp only [har] at he
        simp only [Bool.not_false, if_true, List.mem_singleton] at he
        subst he
        cases hcode
    · by_cases hmv : isContainsMultiVersion m = true
      · rw [if_pos hmv] at he
        rw [List.mem_singleton] at he
        subst he
        exact ⟨rfl, rfl⟩
      · simp only [Bool.not_eq_true] at hmv
        simp [hmv] at he

/-- Witness for C8: the concrete manifest model with two versions under its
default tag triggers the warning, and the expected finding names the tag
with Warning severity. -/
theorem default_tag_multi_version_iff_witness :
    ((validateReadMeFile multiVersionScenario "spec/readme.md").any
        (fun e => decide (e.code = ErrCode.MULTIPLE_API_VERSION)) = true) ∧
      multiVersionFinding.level = ErrLevel.warning ∧
      multiVersionFinding.tag = getDefaultTag multiVersionScenario :=
  ⟨(default_tag_multi_version_iff multiVersionScenario "spec/readme.md").1.mpr
      ⟨"pkg-2021", by decide, by decide⟩,
    (default_tag_multi_version_iff multiVersionScenario "spec/readme.md").2
      multiVersionFinding (by decide) (by decide)⟩

/-- Membership in the set-semantics add. -/
theorem mem_setAdd (s : List String) (k p : String) : p ∈ setAdd s k ↔ p = k ∨ p ∈ s := by
  unfold setAdd
  by_cases h : k ∈ s
  · rw [if_pos h]
    constructor
    · exact Or.inr
    · rintro (rfl | hp)
      · exact h
      · exact hp
  · rw [if_neg h]
    exact List.mem_cons

/-- Membership in the set-semantics delete. -/
theorem mem_setDelete (s : List String) (k p : String) : p ∈ setDelete s k ↔ p ∈ s ∧ p ≠ k := by
  unfold setDelete
  rw [List.mem_filter]
  simp

/-- State containment is reflexive. -/
theorem stMono_refl (st : DfsState) : stMono st st := fun _ h => h

/-- State containment is transitive. -/
theorem stMono_trans {s t u : DfsState} (h1 : stMono s t) (h2 : stMono t u) : stMono s u :=
  fun p hp => h2 p (h1 p hp)

/-- Moving a path from gray to black preserves state containment. -/
theorem moveTo_stMono (st : DfsState) (k : String) : stMono st (moveTo st k) := by
  intro p hp
  unfold moveTo
  simp only [mem_setDelete, mem_setAdd]
  by_cases hpk : p = k
  · exact Or.inr (Or.inl hpk)
  · rcases hp with hp | hp
    · exact Or.inl ⟨hp, hpk⟩
    · exact Or.inr (Or.inr hp)

/-- Marking a path gray on entry preserves state containment. -/
theorem enterGray_stMono (current : Specification) (st : DfsState) :
    stMono st (enterGray current st) := by
  unfold enterGray
  by_cases hb : current.path ∈ st.black
  · rw [if_pos hb]; exact stMono_refl st
  · rw [if_neg hb]
    intro p hp
    simp only [mem_setAdd]
    rcases hp with hp | hp
    · exact Or.inl (Or.inr hp)
    · exact Or.inr hp

/-- The gray-target step preserves state containment. -/
theorem circStep_stMono (current : Specification) (st : DfsState) (r : String) :
    stMono st (circStep current st r).2 := by
  unfold circStep
  by_cases hg : r ∈ st.gray
  · rw [if_pos hg]
    exact moveTo_stMono st r
  · rw [if_neg hg]
    exact stMono_refl st

/-- The gray-target step either forces a gray target to black or leaves the
state unchanged with the target not gray. -/
theorem circStep_cases (current : Specification) (st : DfsState) (r : String) :
    (r ∈ (circStep current st r).2.black) ∨
      ((circStep current st r).2 = st ∧ r ∉ st.gray) := by
  unfold circStep
  by_cases hg : r ∈ st.gray
  · rw [if_pos hg]
    exact Or.inl ((mem_setAdd st.black r r).mpr (Or.inl rfl))
  · rw [if_neg hg]
    exact Or.inr ⟨rfl, hg⟩

/-- The termination measure never grows along state containment. -/
theorem freeCount_le_of_stMono (env : Env) {s t : DfsState} (h : stMono s t) :
    freeCount env t ≤ freeCount env s := by
  unfold freeCount
  apply List.countP_mono_left
  intro p _ hp
  simp only [decide_eq_true_eq] at hp ⊢
  intro hin
  exact hp (h p hin)

/-- A counted list with a monotone predicate pair and a witness satisfying
only the larger predicate counts strictly fewer for the smaller one. -/
theorem countP_lt_of_witness {α : Type} (l : List α) (p q : α → Bool)
    (hmono : ∀ a ∈ l, q a = true → p a = true) :
    ∀ a ∈ l, p a = true → q a = false → l.countP q < l.countP p := by
  induction l with
  | nil => intro a ha; cases ha
  | cons b t ih =>
    intro a ha hpa hqa
    have hmt : ∀ x ∈ t, q x = true → p x = true := fun x hx => hmono x (List.mem_cons_of_mem b hx)
    rcases List.mem_cons.mp ha with rfl | hat
    · rw [List.countP_cons_of_pos _ _ hpa, List.countP_cons_of_neg]
      · have := List.countP_mono_left hmt
        omega
      · simp [hqa]
    · have hlt := ih hmt a hat hpa hqa
      rw [List.countP_cons, List.countP_cons]
      have hbb : (if q b then 1 else 0) ≤ (if p b then 1 else 0) := by
        by_cases hqb : q b = true
        · rw [if_pos hqb, if_pos (hmono b (List.mem_cons_self b t) hqb)]
        · rw [if_neg (by simp [hqb])]
          omega
      omega

/-- Reading a file successfully places its path in the readable domain. -/
theorem envDom_mem_of_read (env : Env) (p : String) (fm : FileModel)
    (h : envRead env p = some fm) : p ∈ envDom env := by
  unfold envRead assocGet at h
  match hf : env.find? (fun kv => decide (kv.1 = p)) with
  | some kv =>
    have hm := List.mem_of_find?_eq_some hf
    have hk := List.find?_some hf
    simp only [decide_eq_true_eq] at hk
    unfold envDom
    exact List.mem_map.mpr ⟨kv, hm, hk⟩
  | none => rw [hf] at h; cases h

/-- Marking a free readable path gray strictly shrinks the termination
measure. -/
theorem freeCount_lt_enterGray (env : Env) (st : DfsState) (cur : Specification)
    (hdom : cur.path ∈ envDom env) (hg : cur.path ∉ st.gray) (hb : cur.path ∉ st.black) :
    freeCount env (enterGray cur st) < freeCount env st := by
  unfold enterGray
  rw [if_neg hb]
  unfold freeCount
  have hmono : ∀ a ∈ envDom env,
      (fun p => decide (¬ (p ∈ setAdd st.gray cur.path ∨ p ∈ st.black))) a = true →
      (fun p => decide (¬ (p ∈ st.gray ∨ p ∈ st.black))) a = true := by
    intro a _ ha
    simp only [decide_eq_true_eq] at ha ⊢
    intro hin
    apply ha
    rcases hin with hin | hin
    · exact Or.inl ((mem_setAdd st.gray cur.path a).mpr (Or.inr hin))
    · exact Or.inr hin
  have hpa : (fun p => decide (¬ (p ∈ st.gray ∨ p ∈ st.black))) cur.path = true := by
    simp only [decide_eq_true_eq]
    rintro (hin | hin)
    · exact hg hin
    · exact hb hin
  have hqa : (fun p => decide (¬ (p ∈ setAdd st.gray cur.path ∨ p ∈ st.black))) cur.path = false := by
    simp only [decide_eq_false_iff_not, Classical.not_not]
    exact Or.inl ((mem_setAdd st.gray cur.path cur.path).mpr (Or.inl rfl))
  exact countP_lt_of_witness (envDom env) _ _ hmono cur.path hdom hpa hqa

/-- Totality of the reference loop: when the recursive visit succeeds on
every free node within the measure budget, the loop succeeds within the same
budget and only grows the gray-black union. -/
theorem dfsRefs_total (env : Env) (B : Nat)
    (visit : Specification → DfsState → Option (List Err × DfsState))
    (hv : ∀ sp st2, freeCount env st2 + 1 ≤ B → sp.path ∉ st2.gray → sp.path ∉ st2.black →
      ∃ es st', visit sp st2 = some (es, st') ∧ stMono st2 st') :
    ∀ (l : List String) (current : Specification) (st : DfsState),
      freeCount env st + 1 ≤ B →
      ∃ es st', dfsRefs visit current l st = some (es, st') ∧ stMono st st' := by
  intro l
  induction l with
  | nil =>
    intro current st _
    exact ⟨[], st, rfl, stMono_refl st⟩
  | cons r rest ih =>
    intro current st hb
    have hmono0 : stMono st (circStep current st r).2 := circStep_stMono current st r
    have hfc0 : freeCount env (circStep current st r).2 + 1 ≤ B := by
      have := freeCount_le_of_stMono env hmono0
      omega
    by_cases hblk : r ∈ (circStep current st r).2.black
    · obtain ⟨es2, st3, he2, hm2⟩ := ih current (circStep current st r).2 hfc0
      refine ⟨(circStep current st r).1 ++ [] ++ es2, st3, ?_, stMono_trans hmono0 hm2⟩
      simp only [dfsRefs, if_pos hblk, he2]
    · have hgr : r ∉ (circStep current st r).2.gray := by
        rcases circStep_cases current st r with hc | ⟨heq, hng⟩
        · exact absurd hc hblk
        · rw [heq]; exact hng
      obtain ⟨es1, st2, he1, hm1⟩ :=
        hv (refSpecification current r) (circStep current st r).2 hfc0 hgr hblk
      have hfc2 : freeCount env st2 + 1 ≤ B := by
        have := freeCount_le_of_stMono env hm1
        omega
      obtain ⟨es2, st3, he2, hm2⟩ := ih current st2 hfc2
      refine ⟨(circStep current st r).1 ++ es1 ++ es2, st3, ?_,
        stMono_trans hmono0 (stMono_trans hm1 hm2)⟩
      simp only [dfsRefs, if_neg hblk, he1, he2]

/-- Totality of the node visit: with enough fuel relative to the number of
still-free readable paths, the visit succeeds and only grows the gray-black
union.  A free node needs one unit less than a revisited one, and an
unreadable node returns within any positive fuel. -/
theorem dfsVisit_total (env : Env) :
    ∀ (fuel : Nat) (cur : Specification) (st : DfsState),
      (freeCount env st + 2 ≤ fuel ∨
        (1 ≤ fuel ∧ envRead env cur.path = none) ∨
        (freeCount env st + 1 ≤ fuel ∧ cur.path ∉ st.gray ∧ cur.path ∉ st.black)) →
      ∃ es st', dfsVisit env fuel cur st = some (es, st') ∧ stMono st st' := by
  intro fuel
  induction fuel with
  | zero =>
    intro cur st h
    exfalso
    rcases h with h | ⟨h, _⟩ | ⟨h, _⟩ <;> omega
  | succ fuel ih =>
    intro cur st h
    cases hread : envRead env cur.path with
    | none =>
      refine ⟨[noJsonFileFoundErr cur], enterGray cur st, ?_, enterGray_stMono cur st⟩
      simp only [dfsVisit, hread]
    | some fm =>
      have hv : ∀ sp st2, freeCount env st2 + 1 ≤ fuel → sp.path ∉ st2.gray →
          sp.path ∉ st2.black →
          ∃ es st', dfsVisit env fuel sp st2 = some (es, st') ∧ stMono st2 st' :=
        fun sp st2 hb2 hg2 hk2 => ih sp st2 (Or.inr (Or.inr ⟨hb2, hg2, hk2⟩))
      have hfc1 : freeCount env (enterGray cur st) + 1 ≤ fuel := by
        rcases h with h2 | ⟨_, hnone⟩ | ⟨h1, hg, hk⟩
        · have := freeCount_le_of_stMono env (enterGray_stMono cur st)
          omega
        · rw [hread] at hnone; cases hnone
        · have hdom := envDom_mem_of_read env cur.path fm hread
          have := freeCount_lt_enterGray env st cur hdom hg hk
          omega
      obtain ⟨les, st2, hrefs, hm2⟩ :=
        dfsRefs_total env fuel (dfsVisit env fuel) hv (walkedRefs cur fm) cur
          (enterGray cur st) hfc1
      refine ⟨nodeErrs cur fm ++ les, moveTo st2 cur.path, ?_, ?_⟩
      · simp only [dfsVisit, hread, hrefs]
      · exact stMono_trans (enterGray_stMono cur st)
          (stMono_trans hm2 (moveTo_stMono st2 cur.path))

/-- Totality of the root loop: with fuel exceeding the number of still-free
readable paths by two, every root visit succeeds. -/
theorem walkRoots_total (env : Env) (fuel : Nat) :
    ∀ (roots : List Specification) (st : DfsState),
      freeCount env st + 2 ≤ fuel →
      ∃ es st', walkRoots env fuel roots st = some (es, st') ∧ stMono st st' := by
  intro roots
  induction roots with
  | nil =>
    intro st _
    exact ⟨[], st, rfl, stMono_refl st⟩
  | cons root rest ih =>
    intro st hb
    obtain ⟨es, st1, he, hm⟩ := dfsVisit_total env fuel root st (Or.inl hb)
    have hb1 : freeCount env st1 + 2 ≤ fuel := by
      have := freeCount_le_of_stMono env hm
      omega
    obtain ⟨es2, st2, he2, hm2⟩ := ih st1 hb1
    refine ⟨es ++ es2, st2, ?_, stMono_trans hm hm2⟩
    simp only [walkRoots, he, he2]

/-- The set-semantics delete preserves distinctness. -/
theorem setDelete_nodup (s : List String) (k : String) (h : s.Nodup) : (setDelete s k).Nodup :=
  List.Nodup.filter _ h

/-- The gray-target step preserves distinctness of the black set. -/
theorem circStep_black_nodup (current : Specification) (st : DfsState) (r : String)
    (h : st.black.Nodup) : (circStep current st r).2.black.Nodup := by
  unfold circStep
  by_cases hg : r ∈ st.gray
  · rw [if_pos hg]
    exact setAdd_nodup st.black r h
  · rw [if_neg hg]
    exact h

/-- The reference loop preserves distinctness of the black set whenever the
recursive visit does. -/
theorem dfsRefs_black_nodup
    (visit : Specification → DfsState → Option (List Err × DfsState))
    (hv : ∀ sp st es st', visit sp st = some (es, st') → st.black.Nodup → st'.black.Nodup) :
    ∀ (l : List String) (current : Specification) (st : DfsState) (es : List Err)
      (st' : DfsState), dfsRefs visit current l st = some (es, st') →
      st.black.Nodup → st'.black.Nodup := by
  intro l
  induction l with
  | nil =>
    intro current st es st' h hnd
    simp only [dfsRefs] at h
    cases h
    exact hnd
  | cons r rest ih =>
    intro current st es st' h hnd
    simp only [dfsRefs] at h
    cases heq : (if r ∈ (circStep current st r).2.black
        then some (([] : List Err), (circStep current st r).2)
        else visit (refSpecification current r) (circStep current st r).2) with
    | none => rw [heq] at h; cases h
    | some pair =>
      obtain ⟨es1, st2⟩ := pair
      rw [heq] at h
      simp only at h
      cases heq2 : dfsRefs visit current rest st2 with
      | none => rw [heq2] at h; cases h
      | some pair2 =>
        obtain ⟨es2, st3⟩ := pair2
        rw [heq2] at h
        simp only at h
        cases h
        have hnd2 : st2.black.Nodup := by
          by_cases hblk : r ∈ (circStep current st r).2.black
          · rw [if_pos hblk] at heq
            cases heq
            exact circStep_black_nodup current st r hnd
          · rw [if_neg hblk] at heq
            exact hv _ _ _ _ heq (circStep_black_nodup current st r hnd)
        exact ih current st2 _ _ heq2 hnd2

/-- The node visit preserves distinctness of the black set. -/
theorem dfsVisit_black_nodup (env : Env) :
    ∀ (fuel : Nat) (cur : Specification) (st : DfsState) (es : List Err) (st' : DfsState),
      dfsVisit env fuel cur st = some (es, st') → st.black.Nodup → st'.black.Nodup := by
  intro fuel
  induction fuel with
  | zero => intro cur st es st' h; cases h
  | succ fuel ih =>
    intro cur st es st' h hnd
    have hndg : (enterGray cur st).black.Nodup := by
      unfold enterGray
      by_cases hb : cur.path ∈ st.black
      · rw [if_pos hb]; exact hnd
      · rw [if_neg hb]; exact hnd
    simp only [dfsVisit] at h
    cases hread : envRead env cur.path with
    | none =>
      rw [hread] at h
      simp only at h
      cases h
      exact hndg
    | some fm =>
      rw [hread] at h
      simp only at h
      cases heq2 : dfsRefs (dfsVisit env fuel) cur (walkedRefs cur fm) (enterGray cur st) with
      | none => rw [heq2] at h; cases h
      | some pair =>
        obtain ⟨loopErrs, st2⟩ := pair
        rw [heq2] at h
        simp only at h
        cases h
        have hnd2 : st2.black.Nodup :=
          dfsRefs_black_nodup (dfsVisit env fuel) (fun sp s2 e2 s3 he => ih sp s2 e2 s3 he)
            (walkedRefs cur fm) cur (enterGray cur st) loopErrs st2 heq2 hndg
        exact setAdd_nodup st2.black cur.path hnd2

/-- The root loop preserves distinctness of the black set. -/
theorem walkRoots_black_nodup (env : Env) (fuel : Nat) :
    ∀ (roots : List Specification) (st : DfsState) (es : List Err) (st' : DfsState),
      walkRoots env fuel roots st = some (es, st') → st.black.Nodup → st'.black.Nodup := by
  intro roots
  induction roots with
  | nil =>
    intro st es st' h hnd
    simp only [walkRoots] at h
    cases h
    exact hnd
  | cons root rest ih =>
    intro st es st' h hnd
    simp only [walkRoots] at h
    cases heq : dfsVisit env fuel root st with
    | none => rw [heq] at h; cases h
    | some pair =>
      obtain ⟨es1, st1⟩ := pair
      rw [heq] at h
      simp only at h
      cases heq2 : walkRoots env fuel rest st1 with
      | none => rw [heq2] at h; cases h
      | some pair2 =>
        obtain ⟨es2, st2⟩ := pair2
        rw [heq2] at h
        simp only at h
        cases h
        exact ih st1 _ _ heq2 (dfsVisit_black_nodup env fuel root st es1 st1 heq hnd)

/-- C3: for every finite environment and every root set, the walker
terminates — any fuel exceeding the number of readable paths by two yields a
result — and the resulting black set holds every path at most once. -/
theorem walker_terminates (env : Env) (roots : List Specification) (fuel : Nat)
    (hf : (envDom env).length + 2 ≤ fuel) :
    ∃ es st, walkRoots env fuel roots { gray := [], black := [] } = some (es, st) ∧
      st.black.Nodup := by
  have hfc : freeCount env { gray := [], black := [] } + 2 ≤ fuel := by
    have hle : freeCount env { gray := [], black := [] } ≤ (envDom env).length := by
      unfold freeCount
      exact List.countP_le_length _
    omega
  obtain ⟨es, st, he, _⟩ := walkRoots_total env fuel roots { gray := [], black := [] } hfc
  exact ⟨es, st, he,
    walkRoots_black_nodup env fuel roots { gray := [], black := [] } es st he List.nodup_nil⟩

/-- Witness for C3: fuel three suffices for a one-file environment, also
with a root whose file is missing, and the resulting black set is
duplicate-free. -/
theorem walker_terminates_witness :
    ∃ es st, walkRoots envOrphan 3 [specOrphanA, specOrphanB]
        { gray := [], black := [] } = some (es, st) ∧ st.black.Nodup :=
  walker_terminates envOrphan [specOrphanA, specOrphanB] 3 (by decide)

/-- Every parser finding carries the `JSON_PARSE` code. -/
theorem jsonParse_codes (f : String) (fm : FileModel) :
    ∀ e ∈ (jsonParse f fm).1, e.code = ErrCode.JSON_PARSE := by
  intro e he
  unfold jsonParse at he
  obtain ⟨pe, _, rfl⟩ := List.mem_map.mp he
  rfl

/-- Every version-rule finding carries the `INCONSISTENT_API_VERSION`
code. -/
theorem apiVersion_codes (c : Specification) (d : JsonObjectModel) :
    ∀ e ∈ validateSpecificationAPIVersion c d, e.code = ErrCode.INCONSISTENT_API_VERSION := by
  intro e he
  unfold validateSpecificationAPIVersion at he
  split at he
  · cases he
  · split at he
    · cases he
    · rw [List.mem_singleton] at he
      subst he
      rfl

/-- Every location-rule finding carries the `INVALID_FILE_LOCATION` code. -/
theorem fileLocation_codes (c : Specification) (d : JsonObjectModel) :
    ∀ e ∈ validateFileLocation c d, e.code = ErrCode.INVALID_FILE_LOCATION := by
  intro e he
  unfold validateFileLocation at he
  split at he
  · cases he
  · split at he
    · rw [List.mem_singleton] at he
      subst he
      rfl
    · cases he

/-- No per-node finding of a readable file is an `UNREFERENCED_JSON_FILE`
finding. -/
theorem nodeErrs_no_unref (c : Specification) (fm : FileModel) :
    ∀ e ∈ nodeErrs c fm, e.code ≠ ErrCode.UNREFERENCED_JSON_FILE := by
  intro e he
  unfold nodeErrs at he
  rw [List.mem_append] at he
  rcases he with he | he
  · rw [jsonParse_codes c.path fm e he]
    intro hc
    cases hc
  · split at he
    · split at he
      · rw [List.mem_append] at he
        rcases he with he | he
        · rw [apiVersion_codes _ _ e he]
          intro hc
          cases hc
        · rw [fileLocation_codes _ _ e he]
          intro hc
          cases hc
      · cases he
    · cases he

/-- The gray-target step never emits an `UNREFERENCED_JSON_FILE` finding. -/
theorem circStep_no_unref (c : Specification) (st : DfsState) (r : String) :
    ∀ e ∈ (circStep c st r).1, e.code ≠ ErrCode.UNREFERENCED_JSON_FILE := by
  intro e he
  unfold circStep at he
  split at he
  · rw [List.mem_singleton] at he
    subst he
    intro hc
    cases hc
  · cases he

/-- The reference loop never emits an `UNREFERENCED_JSON_FILE` finding
whenever the recursive visit does not. -/
theorem dfsRefs_no_unref
    (visit : Specification → DfsState → Option (List Err × DfsState))
    (hv : ∀ sp st es st', visit sp st = some (es, st') →
      ∀ e ∈ es, e.code ≠ ErrCode.UNREFERENCED_JSON_FILE) :
    ∀ (l : List String) (current : Specification) (st : DfsState) (es : List Err)
      (st' : DfsState), dfsRefs visit current l st = some (es, st') →
      ∀ e ∈ es, e.code ≠ ErrCode.UNREFERENCED_JSON_FILE := by
  intro l
  induction l with
  | nil =>
    intro current st es st' h e he
    simp only [dfsRefs] at h
    cases h
    cases he
  | cons r rest ih =>
    intro current st es st' h e he
    simp only [dfsRefs] at h
    cases heq : (if r ∈ (circStep current st r).2.black
        then some (([] : List Err), (circStep current st r).2)
        else visit (refSpecification current r) (circStep current st r).2) with
    | none => rw [heq] at h; cases h
    | some pair =>
      obtain ⟨es1, st2⟩ := pair
      rw [heq] at h
      simp only at h
      cases heq2 : dfsRefs visit current rest st2 with
      | none => rw [heq2] at h; cases h
      | some pair2 =>
        obtain ⟨es2, st3⟩ := pair2
        rw [heq2] at h
        simp only at h
        cases h
        rw [List.mem_append, List.mem_append] at he
        rcases he with (he | he) | he
        · exact circStep_no_unref current st r e he
        · by_cases hblk : r ∈ (circStep current st r).2.black
          · rw [if_pos hblk] at heq
            cases heq
            cases he
          · rw [if_neg hblk] at heq
            exact hv _ _ _ _ heq e he
        · exact ih current st2 _ _ heq2 e he

/-- The node visit never emits an `UNREFERENCED_JSON_FILE` finding. -/
theorem dfsVisit_no_unref (env : Env) :
    ∀ (fuel : Nat) (cur : Specification) (st : DfsState) (es : List Err) (st' : DfsState),
      dfsVisit env fuel cur st = some (es, st') →
      ∀ e ∈ es, e.code ≠ ErrCode.UNREFERENCED_JSON_FILE := by
  intro fuel
  induction fuel with
  | zero => intro cur st es st' h; cases h
  | succ fuel ih =>
    intro cur st es st' h e he
    simp only [dfsVisit] at h
    cases hread : envRead env cur.path with
    | none =>
      rw [hread] at h
      simp only at h
      cases h
      rw [List.mem_singleton] at he
      subst he
      intro hc
      cases hc
    | some fm =>
      rw [hread] at h
      simp only at h
      cases heq2 : dfsRefs (dfsVisit env fuel) cur (walkedRefs cur fm) (enterGray cur st) with
      | none => rw [heq2] at h; cases h
      | some pair =>
        obtain ⟨loopErrs, st2⟩ := pair
        rw [heq2] at h
        simp only at h
        cases h
        rw [List.mem_append] at he
        rcases he with he | he
        · exact nodeErrs_no_unref cur fm e he
        · exact dfsRefs_no_unref (dfsVisit env fuel)
            (fun sp s2 e2 s3 hq => ih sp s2 e2 s3 hq)
            (walkedRefs cur fm) cur (enterGray cur st) loopErrs st2 heq2 e he

/-- The root loop never emits an `UNREFERENCED_JSON_FILE` finding. -/
theorem walkRoots_no_unref (env : Env) (fuel : Nat) :
    ∀ (roots : List Specification) (st : DfsState) (es : List Err) (st' : DfsState),
      walkRoots env fuel roots st = some (es, st') →
      ∀ e ∈ es, e.code ≠ ErrCode.UNREFERENCED_JSON_FILE := by
  intro roots
  induction roots with
  | nil =>
    intro st es st' h e he
    simp only [walkRoots] at h
    cases h
    cases he
  | cons root rest ih =>
    intro st es st' h e he
    simp only [walkRoots] at h
    cases heq : dfsVisit env fuel root st with
    | none => rw [heq] at h; cases h
    | some pair =>
      obtain ⟨es1, st1⟩ := pair
      rw [heq] at h
      simp only at h
      cases heq2 : walkRoots env fuel rest st1 with
      | none => rw [heq2] at h; cases h
      | some pair2 =>
        obtain ⟨es2, st2⟩ := pair2
        rw [heq2] at h
        simp only at h
        cases h
        rw [List.mem_append] at he
        rcases he with he | he
        · exact dfsVisit_no_unref env fuel root st es1 st1 heq e he
        · exact ih st1 _ _ heq2 e he

/-- C5: the orphan detector of `validateInputFiles` reports exactly the
files whose path the walk left outside the black set: the
`UNREFERENCED_JSON_FILE` findings of the output are precisely the image of
those files under `unreferencedError` — which carries Error severity and the
swagger or example message according to the file's kind — and a file whose
path is black yields none. -/
theorem unreferenced_files_reported (env : Env) (fuel : Nat)
    (roots allFiles : List Specification) (out : List Err)
    (h : validateInputFiles env fuel roots allFiles = some out) :
    ∃ es st, walkRoots env fuel roots { gray := [], black := [] } = some (es, st) ∧
      out.filter (fun e => decide (e.code = ErrCode.UNREFERENCED_JSON_FILE)) =
        (allFiles.filter (fun spec => !(st.black.contains spec.path))).map unreferencedError ∧
      (∀ e ∈ out, e.code = ErrCode.UNREFERENCED_JSON_FILE → e.level = ErrLevel.error) := by
  unfold validateInputFiles at h
  cases hw : walkRoots env fuel roots { gray := [], black := [] } with
  | none => rw [hw] at h; cases h
  | some pair =>
    obtain ⟨es, st⟩ := pair
    rw [hw] at h
    simp only at h
    cases h
    refine ⟨es, st, rfl, ?_, ?_⟩
    · rw [List.filter_append]
      have h1 : es.filter (fun e => decide (e.code = ErrCode.UNREFERENCED_JSON_FILE)) = [] := by
        rw [List.filter_eq_nil_iff]
        intro e he
        simp only [decide_eq_true_eq]
        exact walkRoots_no_unref env fuel roots _ es st hw e he
      have h2 : ((allFiles.filter (fun spec => !(st.black.contains spec.path))).map
          unreferencedError).filter (fun e => decide (e.code = ErrCode.UNREFERENCED_JSON_FILE)) =
          (allFiles.filter (fun spec => !(st.black.contains spec.path))).map unreferencedError := by
        rw [List.filter_eq_self]
        intro e he
        obtain ⟨spec, _, rfl⟩ := List.mem_map.mp he
        simp [unreferencedError]
      rw [h1, h2, List.nil_append]
    · intro e he hc
      rw [List.mem_append] at he
      rcases he with he | he
      · exact absurd hc (walkRoots_no_unref env fuel roots _ es st hw e he)
      · obtain ⟨spec, _, rfl⟩ := List.mem_map.mp he
        rfl

/-- Witness for C5: file `a` is declared and walked, file `b` only lies on
disk; exactly one `UNREFERENCED_JSON_FILE` finding is produced, for `b`. -/
theorem unreferenced_files_reported_witness :
    ∃ es st, walkRoots envOrphan 3 [specOrphanA] { gray := [], black := [] } = some (es, st) ∧
      [unreferencedError specOrphanB].filter
          (fun e => decide (e.code = ErrCode.UNREFERENCED_JSON_FILE)) =
        ([specOrphanA, specOrphanB].filter
            (fun spec => !(st.black.contains spec.path))).map unreferencedError ∧
      (∀ e ∈ [unreferencedError specOrphanB],
        e.code = ErrCode.UNREFERENCED_JSON_FILE → e.level = ErrLevel.error) :=
  unreferenced_files_reported envOrphan 3 [specOrphanA] [specOrphanA, specOrphanB]
    [unreferencedError specOrphanB] (by decide)

end Avocado
